import Mathlib

/-!
Shallow embedding of the `image-core` crate (files `src/colortype.rs`,
`src/decoder.rs`), covering the color-type data model, the `Progress`
value, and the default chunked streaming-read algorithm of the
`ImageDecoder` trait.

Modelling conventions:
* Machine integers (`u8`, `u16`, `u32`, `u64`, `usize`) are modelled as
  `Nat`; where the source performs `u64` arithmetic that can overflow,
  the embedding reduces modulo `2 ^ 64` at the same places.
* A Rust panic (a failed `assert_eq!` or an integer division by zero) is
  the outcome `ReadOutcome.panicked`, distinct from recoverable errors.
* The `Read` channel produced by `into_reader` is modelled as the list of
  bytes it can still yield; `read_exact n` succeeds exactly when at least
  `n` bytes remain, and fails with an end-of-file error otherwise.
* The progress callback is modelled by accumulating the list of `Progress`
  values it is invoked with, in order.
-/

/-- Color types of `src/colortype.rs` (`enum ColorType`); the uninhabited
`__Nonexhaustive` variant carries an empty marker and is omitted. -/
inductive ColorType where
  | L8
  | La8
  | Rgb8
  | Rgba8
  | L16
  | La16
  | Rgb16
  | Rgba16
  | Bgr8
  | Bgra8
  deriving DecidableEq, Repr, Fintype

/-- Extended color types of `src/colortype.rs` (`enum ExtendedColorType`);
`Unknown` carries the `u8` bits-per-pixel parameter. -/
inductive ExtendedColorType where
  | L1
  | La1
  | Rgb1
  | Rgba1
  | L2
  | La2
  | Rgb2
  | Rgba2
  | L4
  | La4
  | Rgb4
  | Rgba4
  | L8
  | La8
  | Rgb8
  | Rgba8
  | L16
  | La16
  | Rgb16
  | Rgba16
  | Bgr8
  | Bgra8
  | Unknown (bits : Nat)
  deriving DecidableEq, Repr

/-- Embeds `ColorType::bytes_per_pixel`. -/
def ColorType.bytes_per_pixel : ColorType → Nat
  | .L8 => 1
  | .L16 | .La8 => 2
  | .Rgb8 | .Bgr8 => 3
  | .Rgba8 | .Bgra8 | .La16 => 4
  | .Rgb16 => 6
  | .Rgba16 => 8

/-- Embeds `ColorType::bits_per_pixel`. -/
def ColorType.bits_per_pixel (c : ColorType) : Nat :=
  c.bytes_per_pixel * 8

/-- Embeds `impl From<ColorType> for ExtendedColorType`. -/
def ExtendedColorType.fromColorType : ColorType → ExtendedColorType
  | .L8 => .L8
  | .La8 => .La8
  | .Rgb8 => .Rgb8
  | .Rgba8 => .Rgba8
  | .L16 => .L16
  | .La16 => .La16
  | .Rgb16 => .Rgb16
  | .Rgba16 => .Rgba16
  | .Bgr8 => .Bgr8
  | .Bgra8 => .Bgra8

/-- Embeds `ExtendedColorType::channel_count`. -/
def ExtendedColorType.channel_count : ExtendedColorType → Nat
  | .L1 | .L2 | .L4 | .L8 | .L16 | .Unknown _ => 1
  | .La1 | .La2 | .La4 | .La8 | .La16 => 2
  | .Rgb1 | .Rgb2 | .Rgb4 | .Rgb8 | .Rgb16 | .Bgr8 => 3
  | .Rgba1 | .Rgba2 | .Rgba4 | .Rgba8 | .Rgba16 | .Bgra8 => 4

/-- Embeds `ColorType::channel_count` (projects into the extended type). -/
def ColorType.channel_count (c : ColorType) : Nat :=
  (ExtendedColorType.fromColorType c).channel_count

/-- Embeds `struct Progress` of `src/decoder.rs`: two `u64` counters. -/
structure Progress where
  current : Nat
  total : Nat
  deriving DecidableEq, Repr

/-- Embeds `Progress::remaining`: `self.total.max(self.current) - self.current`
(the subtraction never underflows in `u64` because the minuend is at least
`self.current`, so plain `Nat` subtraction is an exact model). -/
def Progress.remaining (p : Progress) : Nat :=
  max p.total p.current - p.current

/-- One more than the largest `u64` value. -/
def u64size : Nat := 2 ^ 64

/-- Default body of `ImageDecoder::total_bytes`:
`u64::from(w) * u64::from(h) * u64::from(bytes_per_pixel)`, with each `u64`
multiplication reduced modulo `2 ^ 64` as in release-mode Rust. -/
def defaultTotalBytes (w h : Nat) (c : ColorType) : Nat :=
  (w * h % u64size) * c.bytes_per_pixel % u64size

/-- Errors crossing the decoder boundary: `custom` stands for an arbitrary
`ImageError` produced by `into_reader`; `unexpectedEof` for the I/O error
`read_exact` raises when the channel runs out of bytes. -/
inductive ImageError where
  | custom (code : Nat)
  | unexpectedEof
  deriving DecidableEq, Repr

/-- A concrete instance of the `ImageDecoder` trait: `dimensions` and
`color_type` are the required methods; `total_bytes` and `scanline_bytes`
hold whatever the implementation's (possibly overridden) methods return;
`into_reader` is the fallible byte channel the decoder turns into. -/
structure Decoder where
  dimensions : Nat × Nat
  color_type : ColorType
  total_bytes : Nat
  scanline_bytes : Nat
  into_reader : Except ImageError (List Nat)

/-- Result of a run of the chunked read: a panic, a propagated error
(carrying the buffer contents and the callback invocations so far), fuel
exhaustion (unreachable from `Decoder.read_image_with_progress`, see
`readLoop_spec`), or success with the final buffer and the full list of
callback invocations. -/
inductive ReadOutcome where
  | panicked
  | error (e : ImageError) (buf : List Nat) (reports : List Progress)
  | outOfFuel
  | ok (buf : List Nat) (reports : List Progress)
  deriving DecidableEq, Repr

/-- Writes `data` into `buf` starting at offset `off`, modelling
`reader.read_exact(&mut buf[bytes_read..][..read_size])` filling that slice. -/
def writeAt (buf : List Nat) (off : Nat) (data : List Nat) : List Nat :=
  buf.take off ++ data ++ buf.drop (off + data.length)

/-- The `target_read_size` computation of `read_image_with_progress`
(`src/decoder.rs` lines 113–117), meaningful for `scanline_bytes ≠ 0`
(`Nat` division by zero yields 0 here; the entry point treats that case as
the panic the Rust division raises). -/
def targetReadSize (scanline_bytes : Nat) : Nat :=
  if scanline_bytes < 4096 then 4096 / scanline_bytes * scanline_bytes
  else scanline_bytes

/-- The `while bytes_read < total_bytes` loop of `read_image_with_progress`
(`src/decoder.rs` lines 121–131). `fuel` only bounds the number of
iterations; the entry point supplies enough fuel for `outOfFuel` to be
unreachable (each iteration reads at least one byte once
`target ≥ 1`). -/
def readLoop (target total : Nat) :
    Nat → List Nat → List Nat → Nat → List Progress → ReadOutcome
  | 0, _, buf, bytes_read, reports =>
      if bytes_read < total then .outOfFuel else .ok buf reports
  | fuel + 1, reader, buf, bytes_read, reports =>
      if bytes_read < total then
        let read_size := min target (total - bytes_read)
        if read_size ≤ reader.length then
          readLoop target total fuel (reader.drop read_size)
            (writeAt buf bytes_read (reader.take read_size))
            (bytes_read + read_size)
            (reports ++ [⟨bytes_read + read_size, total⟩])
        else .error .unexpectedEof buf reports
      else .ok buf reports

/-- The sequence of `Progress` values the loop reports from state
`bytes_read`, mirroring the recursion of `readLoop`. -/
def chunkReports (target total : Nat) : Nat → Nat → List Progress
  | 0, _ => []
  | fuel + 1, bytes_read =>
      if bytes_read < total then
        ⟨bytes_read + min target (total - bytes_read), total⟩ ::
          chunkReports target total fuel
            (bytes_read + min target (total - bytes_read))
      else []

/-- Embeds `ImageDecoder::read_image_with_progress` (`src/decoder.rs` lines
104–134): the `assert_eq!` on the buffer length, the chunk-size computation
(whose `4096 / scanline_bytes` panics when `scanline_bytes` is 0), the
fallible `into_reader`, and the chunked read loop. -/
def Decoder.read_image_with_progress (d : Decoder) (buf : List Nat) :
    ReadOutcome :=
  if buf.length = d.total_bytes then
    if d.scanline_bytes = 0 then .panicked
    else
      match d.into_reader with
      | .error e => .error e buf []
      | .ok reader =>
          readLoop (targetReadSize d.scanline_bytes) d.total_bytes
            d.total_bytes reader buf 0 []
  else .panicked

/-- Embeds `ImageDecoder::read_image`: delegates to
`read_image_with_progress` with a no-op callback. -/
def Decoder.read_image (d : Decoder) (buf : List Nat) : ReadOutcome :=
  d.read_image_with_progress buf

/-- Helper: every library-native color type occupies at most 8 bytes per pixel. -/
theorem ColorType.bytes_per_pixel_le (c : ColorType) : c.bytes_per_pixel ≤ 8 := by
  cases c <;> simp [ColorType.bytes_per_pixel]

/-- Helper: `writeAt` preserves the buffer length when the write fits. -/
theorem writeAt_length (buf data : List Nat) (off : Nat)
    (h : off + data.length ≤ buf.length) :
    (writeAt buf off data).length = buf.length := by
  simp only [writeAt, List.length_append, List.length_take, List.length_drop]
  omega

/-- C6: `Progress::remaining` clamps to zero when `current` exceeds `total`:
`remaining ⟨10, 5⟩ = 0`, and in general `remaining` is `total - current`
when `total ≥ current` and `0` otherwise, never underflowing. -/
theorem C6_remaining_clamps :
    Progress.remaining ⟨10, 5⟩ = 0 ∧
    ∀ p : Progress,
      p.remaining = if p.current ≤ p.total then p.total - p.current else 0 := by
  refine ⟨rfl, fun p => ?_⟩
  unfold Progress.remaining
  split <;> omega

/-- C7: the conversion `ColorType → ExtendedColorType` is total (it is a
Lean function on the whole variant set), injective, and channel-order
preserving: `Bgr8` maps to the extended `Bgr8` (not `Rgb8`) and `Bgra8`
to the extended `Bgra8` (not `Rgba8`). -/
theorem C7_fromColorType_injective :
    Function.Injective ExtendedColorType.fromColorType ∧
    ExtendedColorType.fromColorType .Bgr8 = .Bgr8 ∧
    ExtendedColorType.fromColorType .Bgra8 = .Bgra8 ∧
    ExtendedColorType.fromColorType .Bgr8 ≠ .Rgb8 ∧
    ExtendedColorType.fromColorType .Bgra8 ≠ .Rgba8 := by
  refine ⟨?_, rfl, rfl, by decide, by decide⟩
  intro a b h
  cases a <;> cases b <;> revert h <;> decide

/-- C7 witness: the injectivity part applied at the concrete input `Bgr8`. -/
theorem C7_fromColorType_injective_witness : ColorType.Bgr8 = ColorType.Bgr8 :=
  C7_fromColorType_injective.1
    (rfl :
      ExtendedColorType.fromColorType .Bgr8 =
        ExtendedColorType.fromColorType .Bgr8)

/-- C8: the default `total_bytes` equals `w * h * bytes_per_pixel` exactly
(no overflow) for all dimensions up to `2 ^ 20`. -/
theorem C8_total_bytes_no_overflow (w h : Nat) (c : ColorType)
    (hw : w ≤ 2 ^ 20) (hh : h ≤ 2 ^ 20) :
    defaultTotalBytes w h c = w * h * c.bytes_per_pixel := by
  have h1 : w * h < u64size :=
    lt_of_le_of_lt (Nat.mul_le_mul hw hh) (by norm_num [u64size])
  have h2 : w * h * c.bytes_per_pixel < u64size := by
    calc w * h * c.bytes_per_pixel ≤ 2 ^ 20 * 2 ^ 20 * 8 :=
          Nat.mul_le_mul (Nat.mul_le_mul hw hh) (ColorType.bytes_per_pixel_le c)
      _ < u64size := by norm_num [u64size]
  rw [defaultTotalBytes, Nat.mod_eq_of_lt h1, Nat.mod_eq_of_lt h2]

/-- C8 witness: the theorem applied at `w = h = 2 ^ 20` with 8-byte pixels. -/
theorem C8_total_bytes_no_overflow_witness :
    defaultTotalBytes (2 ^ 20) (2 ^ 20) ColorType.Rgba16 =
      2 ^ 20 * 2 ^ 20 * 8 :=
  C8_total_bytes_no_overflow (2 ^ 20) (2 ^ 20) ColorType.Rgba16
    (le_refl _) (le_refl _)

/-- C4: for every decoder (dimensions, color type, byte totals and channel
arbitrary) and every buffer whose length differs from `total_bytes`, both
`read_image` and `read_image_with_progress` panic (the `assert_eq!`), and
the outcome does not depend on `into_reader` — the channel is never
obtained and no byte is read. -/
theorem C4_length_mismatch_panics (dims : Nat × Nat) (ct : ColorType)
    (tb sb : Nat) (rdr : Except ImageError (List Nat)) (buf : List Nat)
    (h : buf.length ≠ tb) :
    Decoder.read_image ⟨dims, ct, tb, sb, rdr⟩ buf = .panicked ∧
    Decoder.read_image_with_progress ⟨dims, ct, tb, sb, rdr⟩ buf =
      .panicked := by
  unfold Decoder.read_image Decoder.read_image_with_progress
  simp [h]

/-- C4 witness: the theorem applied to a 1-byte decoder and an empty buffer. -/
theorem C4_length_mismatch_panics_witness :
    Decoder.read_image ⟨(1, 1), .L8, 1, 1, .ok [5]⟩ [] = .panicked :=
  (C4_length_mismatch_panics (1, 1) .L8 1 1 (.ok [5]) [] (by decide)).1

/-- C2 (code bug): a decoder with dimensions `(0, 0)` and the default
`total_bytes` and `scanline_bytes` has `scanline_bytes = 0`, so
`read_image` on the (correctly sized) empty buffer panics — the source
divides `4096 / scanline_bytes` — instead of succeeding. -/
theorem C2_empty_image_read_panics (ct : ColorType)
    (rdr : Except ImageError (List Nat)) :
    defaultTotalBytes 0 0 ct = 0 ∧
    Decoder.read_image
        ⟨(0, 0), ct, defaultTotalBytes 0 0 ct, defaultTotalBytes 0 0 ct, rdr⟩
        [] = .panicked := by
  have h0 : defaultTotalBytes 0 0 ct = 0 := by simp [defaultTotalBytes]
  refine ⟨h0, ?_⟩
  unfold Decoder.read_image Decoder.read_image_with_progress
  simp [h0]

/-- C3: for every positive `scanline_bytes`, the chunk size
`read_image_with_progress` uses is the largest multiple of
`scanline_bytes` not exceeding 4096 when `scanline_bytes < 4096`, and
exactly `scanline_bytes` otherwise. -/
theorem C3_chunk_size (s : Nat) (hs : 1 ≤ s) :
    (s < 4096 →
      targetReadSize s % s = 0 ∧ targetReadSize s ≤ 4096 ∧
        ∀ m, m % s = 0 → m ≤ 4096 → m ≤ targetReadSize s) ∧
    (4096 ≤ s → targetReadSize s = s) := by
  constructor
  · intro hlt
    rw [targetReadSize, if_pos hlt]
    refine ⟨Nat.mul_mod_left _ _, Nat.div_mul_le_self _ _, ?_⟩
    intro m hm hle
    obtain ⟨k, rfl⟩ := Nat.dvd_of_mod_eq_zero hm
    have hks : k * s ≤ 4096 := by rw [Nat.mul_comm]; exact hle
    have hk : k ≤ 4096 / s := (Nat.le_div_iff_mul_le hs).2 hks
    calc s * k = k * s := Nat.mul_comm s k
      _ ≤ 4096 / s * s := Nat.mul_le_mul hk (le_refl s)
  · intro hge
    rw [targetReadSize, if_neg (by omega)]

/-- C3 witness: the theorem applied at `scanline_bytes = 2000` and
`scanline_bytes = 4096`; the multiple 4000 is admitted and chunks of
4096-aligned scanlines are kept whole. -/
theorem C3_chunk_size_witness :
    4000 ≤ targetReadSize 2000 ∧ targetReadSize 2000 ≤ 4096 ∧
      targetReadSize 4096 = 4096 :=
  ⟨((C3_chunk_size 2000 (by norm_num)).1 (by norm_num)).2.2 4000 (by norm_num)
      (by norm_num),
    ((C3_chunk_size 2000 (by norm_num)).1 (by norm_num)).2.1,
    (C3_chunk_size 4096 (by norm_num)).2 (le_refl 4096)⟩

/-- Helper: once `bytes_read` has reached `total`, no reports remain. -/
theorem chunkReports_stop (target total fuel bytes_read : Nat)
    (h : ¬ bytes_read < total) :
    chunkReports target total fuel bytes_read = [] := by
  cases fuel <;> simp [chunkReports, h]

/-- Helper: one unfolding of the report sequence in the reading case. -/
theorem chunkReports_step (target total fuel bytes_read : Nat)
    (hlt : bytes_read < total) :
    chunkReports target total (fuel + 1) bytes_read =
      ⟨bytes_read + min target (total - bytes_read), total⟩ ::
        chunkReports target total fuel
          (bytes_read + min target (total - bytes_read)) := by
  simp [chunkReports, hlt]

/-- Helper: one unfolding of the read loop in the reading case. -/
theorem readLoop_step (target total fuel : Nat) (reader buf : List Nat)
    (bytes_read : Nat) (reports : List Progress)
    (hlt : bytes_read < total)
    (hread : min target (total - bytes_read) ≤ reader.length) :
    readLoop target total (fuel + 1) reader buf bytes_read reports =
      readLoop target total fuel
        (reader.drop (min target (total - bytes_read)))
        (writeAt buf bytes_read
          (reader.take (min target (total - bytes_read))))
        (bytes_read + min target (total - bytes_read))
        (reports ++ [⟨bytes_read + min target (total - bytes_read), total⟩]) := by
  simp [readLoop, hlt, hread]

/-- Helper: the chunk size is positive whenever `scanline_bytes` is. -/
theorem targetReadSize_pos (s : Nat) (hs : 1 ≤ s) : 1 ≤ targetReadSize s := by
  by_cases h : s < 4096
  · rw [targetReadSize, if_pos h]
    have h1 : 1 ≤ 4096 / s := (Nat.le_div_iff_mul_le hs).2 (by omega)
    simpa using Nat.mul_le_mul h1 hs
  · rw [targetReadSize, if_neg h]; omega

/-- Helper: with a positive chunk size, enough fuel, a buffer of length
`total` and a channel holding at least the outstanding bytes, the loop
succeeds, copies the channel's bytes into the buffer after the already
filled region, and reports exactly `chunkReports`. -/
theorem readLoop_spec (target total : Nat) (ht : 1 ≤ target) :
    ∀ fuel reader buf bytes_read reports,
      bytes_read ≤ total → buf.length = total →
      total - bytes_read ≤ reader.length → total - bytes_read ≤ fuel →
      readLoop target total fuel reader buf bytes_read reports =
        .ok (buf.take bytes_read ++ reader.take (total - bytes_read))
          (reports ++ chunkReports target total fuel bytes_read) := by
  intro fuel
  induction fuel with
  | zero =>
    intro reader buf bytes_read reports hbr hbuf hrd hf
    have heq : bytes_read = total := by omega
    subst heq
    simp [readLoop, chunkReports, Nat.sub_self, ← hbuf, List.take_length]
  | succ fuel ih =>
    intro reader buf bytes_read reports hbr hbuf hrd hf
    by_cases hlt : bytes_read < total
    case neg =>
      have heq : bytes_read = total := by omega
      subst heq
      simp [readLoop, chunkReports, Nat.sub_self, ← hbuf, List.take_length]
    case pos =>
      have hrs1 : min target (total - bytes_read) ≤ total - bytes_read :=
        min_le_right _ _
      have hrs2 : 1 ≤ min target (total - bytes_read) := le_min ht (by omega)
      have hread : min target (total - bytes_read) ≤ reader.length :=
        le_trans hrs1 hrd
      have hdata : (reader.take (min target (total - bytes_read))).length =
          min target (total - bytes_read) := by
        rw [List.length_take]; omega
      have hbrlen : (buf.take bytes_read).length = bytes_read := by
        rw [List.length_take]; omega
      have hlen2 : (buf.take bytes_read ++
          reader.take (min target (total - bytes_read))).length =
          bytes_read + min target (total - bytes_read) := by
        rw [List.length_append, hbrlen, hdata]
      have h1 : (writeAt buf bytes_read
            (reader.take (min target (total - bytes_read)))).take
            (bytes_read + min target (total - bytes_read)) =
          buf.take bytes_read ++
            reader.take (min target (total - bytes_read)) := by
        rw [writeAt, hdata, List.take_append_eq_append_take, hlen2,
          Nat.sub_self, List.take_zero, List.append_nil]
        exact List.take_of_length_le (le_of_eq hlen2)
      have h2 : reader.take (min target (total - bytes_read)) ++
          (reader.drop (min target (total - bytes_read))).take
            (total - (bytes_read + min target (total - bytes_read))) =
          reader.take (total - bytes_read) := by
        rw [← List.take_add]
        congr 1
        omega
      rw [readLoop_step target total fuel reader buf bytes_read reports hlt
        hread]
      rw [ih (reader.drop (min target (total - bytes_read)))
        (writeAt buf bytes_read (reader.take (min target (total - bytes_read))))
        (bytes_read + min target (total - bytes_read))
        (reports ++
          [(⟨bytes_read + min target (total - bytes_read), total⟩ : Progress)])
        (by omega)
        (by rw [writeAt_length buf _ bytes_read (by rw [hdata]; omega)]
            exact hbuf)
        (by rw [List.length_drop]; omega)
        (by omega)]
      rw [chunkReports_step target total fuel bytes_read hlt, h1,
        List.append_assoc, h2]
      simp [List.append_assoc]

/-- Helper: a successful loop run reports exactly `chunkReports`, and when
at least one byte was outstanding at entry the last report has
`current = total`. -/
theorem readLoop_ok_reports (target total : Nat) :
    ∀ fuel reader buf bytes_read reports fb rp,
      readLoop target total fuel reader buf bytes_read reports = .ok fb rp →
      rp = reports ++ chunkReports target total fuel bytes_read ∧
      (bytes_read < total → rp.getLast? = some ⟨total, total⟩) := by
  intro fuel
  induction fuel with
  | zero =>
    intro reader buf bytes_read reports fb rp h
    by_cases hlt : bytes_read < total
    · rw [readLoop, if_pos hlt] at h
      exact ReadOutcome.noConfusion h
    · rw [readLoop, if_neg hlt] at h
      injection h with hfb hrp
      subst hrp
      exact ⟨by simp [chunkReports], fun h2 => absurd h2 hlt⟩
  | succ fuel ih =>
    intro reader buf bytes_read reports fb rp h
    by_cases hlt : bytes_read < total
    case neg =>
      simp only [readLoop, if_neg hlt] at h
      injection h with hfb hrp
      subst hrp
      exact ⟨by simp [chunkReports_stop target total _ _ hlt],
        fun h2 => absurd h2 hlt⟩
    case pos =>
      simp only [readLoop, if_pos hlt] at h
      by_cases hread : min target (total - bytes_read) ≤ reader.length
      · rw [if_pos hread] at h
        obtain ⟨h1, h2⟩ := ih _ _ _ _ _ _ h
        constructor
        · rw [h1, chunkReports_step target total fuel bytes_read hlt]
          simp [List.append_assoc]
        · intro _
          by_cases hlt2 : bytes_read + min target (total - bytes_read) < total
          · exact h2 hlt2
          · have hbr2 : bytes_read + min target (total - bytes_read) = total := by
              omega
            rw [h1, chunkReports_stop target total fuel _ (by omega),
              List.append_nil, hbr2]
            exact List.getLast?_concat _
      · rw [if_neg hread] at h
        exact ReadOutcome.noConfusion h

/-- Helper: every reported value carries `total` as its total, a `current`
above the starting offset, and a `current` of at most `total`. -/
theorem chunkReports_mem (target total : Nat) (ht : 1 ≤ target) :
    ∀ fuel bytes_read r, r ∈ chunkReports target total fuel bytes_read →
      r.total = total ∧ bytes_read < r.current ∧ r.current ≤ total := by
  intro fuel
  induction fuel with
  | zero =>
    intro bytes_read r hr
    simp [chunkReports] at hr
  | succ fuel ih =>
    intro bytes_read r hr
    by_cases hlt : bytes_read < total
    · rw [chunkReports_step target total fuel bytes_read hlt] at hr
      rcases List.mem_cons.1 hr with h | h
      · subst h
        exact ⟨rfl,
          by show bytes_read < bytes_read + min target (total - bytes_read)
             omega,
          by show bytes_read + min target (total - bytes_read) ≤ total
             omega⟩
      · obtain ⟨h1, h2, h3⟩ := ih _ _ h
        exact ⟨h1, by omega, h3⟩
    · rw [chunkReports_stop target total _ _ hlt] at hr
      simp at hr

/-- Helper: the reported `current` values are strictly increasing. -/
theorem chunkReports_pairwise (target total : Nat) (ht : 1 ≤ target) :
    ∀ fuel bytes_read,
      (chunkReports target total fuel bytes_read).Pairwise
        (fun a b => a.current < b.current) := by
  intro fuel
  induction fuel with
  | zero =>
    intro bytes_read
    simp [chunkReports]
  | succ fuel ih =>
    intro bytes_read
    by_cases hlt : bytes_read < total
    · rw [chunkReports_step target total fuel bytes_read hlt]
      refine List.Pairwise.cons ?_ (ih _)
      intro b hb
      have hm := (chunkReports_mem target total ht fuel _ b hb).2.1
      exact hm
    · rw [chunkReports_stop target total _ _ hlt]
      exact List.Pairwise.nil

/-- Helper: entry-point success: with a positive `scanline_bytes`, a buffer
sized `total_bytes` and a channel holding at least `total_bytes` bytes,
`read_image_with_progress` succeeds, fills the buffer with the first
`total_bytes` channel bytes, and reports `chunkReports`. -/
theorem read_image_with_progress_ok (d : Decoder) (reader buf : List Nat)
    (hs : 1 ≤ d.scanline_bytes) (hr : d.into_reader = .ok reader)
    (hlen : d.total_bytes ≤ reader.length)
    (hbuf : buf.length = d.total_bytes) :
    d.read_image_with_progress buf =
      .ok (reader.take d.total_bytes)
        (chunkReports (targetReadSize d.scanline_bytes) d.total_bytes
          d.total_bytes 0) := by
  unfold Decoder.read_image_with_progress
  rw [if_pos hbuf, if_neg (by omega), hr]
  have ht : 1 ≤ targetReadSize d.scanline_bytes := targetReadSize_pos _ hs
  show readLoop (targetReadSize d.scanline_bytes) d.total_bytes d.total_bytes
    reader buf 0 [] = _
  rw [readLoop_spec (targetReadSize d.scanline_bytes) d.total_bytes ht
    d.total_bytes reader buf 0 [] (Nat.zero_le _) hbuf (by omega) (by omega)]
  simp

/-- C1 counterexample: on the concrete decoder with `total_bytes = 10000`,
`scanline_bytes = 2000` and a channel of 10000 bytes, the computed chunk
size is 4000 (`floor(4096/2000) = 2`), not 2000, and the callback fires 3
times with `current = 4000, 8000, 10000` — not 5 times with
`current = 2000, 4000, 6000, 8000, 10000` as claimed. -/
theorem C1_counterexample :
    targetReadSize 2000 ≠ 2000 ∧
    Decoder.read_image_with_progress
        ⟨(50, 50), .Rgba8, 10000, 2000, .ok (List.replicate 10000 3)⟩
        (List.replicate 10000 0) =
      .ok (List.replicate 10000 3)
        [⟨4000, 10000⟩, ⟨8000, 10000⟩, ⟨10000, 10000⟩] ∧
    ([⟨4000, 10000⟩, ⟨8000, 10000⟩, ⟨10000, 10000⟩] : List Progress) ≠
      [⟨2000, 10000⟩, ⟨4000, 10000⟩, ⟨6000, 10000⟩, ⟨8000, 10000⟩,
        ⟨10000, 10000⟩] := by
  refine ⟨by decide, ?_, by decide⟩
  rw [read_image_with_progress_ok
    ⟨(50, 50), .Rgba8, 10000, 2000, .ok (List.replicate 10000 3)⟩
    (List.replicate 10000 3) (List.replicate 10000 0)
    (by norm_num) rfl (by simp only [List.length_replicate]; omega)
    (by simp only [List.length_replicate])]
  show ReadOutcome.ok ((List.replicate 10000 3).take 10000)
      (chunkReports (targetReadSize 2000) 10000 10000 0) = _
  rw [show chunkReports (targetReadSize 2000) 10000 10000 0 =
      [⟨4000, 10000⟩, ⟨8000, 10000⟩, ⟨10000, 10000⟩] from by decide,
    List.take_replicate, min_self]

/-- C1 (amended): on every decoder with `total_bytes = 10000` and
`scanline_bytes = 2000` whose channel yields at least 10000 bytes without
failure, `read_image_with_progress` uses chunk size
`floor(4096/2000) * 2000 = 4000`, invokes the callback exactly 3 times with
`current = 4000, 8000, 10000` and `total = 10000` each time, and fills the
destination buffer byte-for-byte with the first 10000 channel bytes. -/
theorem C1_chunked_read_10000 (dims : Nat × Nat) (ct : ColorType)
    (reader buf : List Nat) (hr : 10000 ≤ reader.length)
    (hbuf : buf.length = 10000) :
    targetReadSize 2000 = 4000 ∧
    Decoder.read_image_with_progress ⟨dims, ct, 10000, 2000, .ok reader⟩ buf =
      .ok (reader.take 10000)
        [⟨4000, 10000⟩, ⟨8000, 10000⟩, ⟨10000, 10000⟩] := by
  refine ⟨by decide, ?_⟩
  rw [read_image_with_progress_ok ⟨dims, ct, 10000, 2000, .ok reader⟩ reader
    buf (by norm_num) rfl hr hbuf]
  show ReadOutcome.ok (reader.take 10000)
      (chunkReports (targetReadSize 2000) 10000 10000 0) = _
  rw [show chunkReports (targetReadSize 2000) 10000 10000 0 =
      [⟨4000, 10000⟩, ⟨8000, 10000⟩, ⟨10000, 10000⟩] from by decide]

/-- C1 witness: the amended theorem applied to the concrete channel of
10000 bytes of value 3 and a zeroed 10000-byte buffer. -/
theorem C1_chunked_read_10000_witness :
    targetReadSize 2000 = 4000 ∧
    Decoder.read_image_with_progress
        ⟨(50, 50), .Rgba8, 10000, 2000, .ok (List.replicate 10000 3)⟩
        (List.replicate 10000 0) =
      .ok ((List.replicate 10000 3).take 10000)
        [⟨4000, 10000⟩, ⟨8000, 10000⟩, ⟨10000, 10000⟩] :=
  C1_chunked_read_10000 (50, 50) .Rgba8 (List.replicate 10000 3)
    (List.replicate 10000 0) (by simp only [List.length_replicate]; omega)
    (by simp only [List.length_replicate])

/-- C5: round-trip — on every decoder with positive `scanline_bytes` whose
channel yields exactly `total_bytes` bytes with no failures, `read_image`
with a buffer of length `total_bytes` completes successfully and the buffer
afterwards equals the concatenation, in order, of all bytes produced by the
channel. -/
theorem C5_round_trip (d : Decoder) (reader buf : List Nat)
    (hs : 1 ≤ d.scanline_bytes) (hr : d.into_reader = .ok reader)
    (hlen : reader.length = d.total_bytes)
    (hbuf : buf.length = d.total_bytes) :
    d.read_image buf =
      .ok reader
        (chunkReports (targetReadSize d.scanline_bytes) d.total_bytes
          d.total_bytes 0) := by
  unfold Decoder.read_image
  rw [read_image_with_progress_ok d reader buf hs hr (le_of_eq hlen.symm)
    hbuf, ← hlen, List.take_length]

/-- C5 witness: the theorem applied to a 4-byte decoder whose channel holds
exactly the bytes 9, 8, 7, 6. -/
theorem C5_round_trip_witness :
    Decoder.read_image ⟨(1, 1), .Rgba8, 4, 2, .ok [9, 8, 7, 6]⟩
        [0, 0, 0, 0] =
      .ok [9, 8, 7, 6] (chunkReports (targetReadSize 2) 4 4 0) :=
  C5_round_trip ⟨(1, 1), .Rgba8, 4, 2, .ok [9, 8, 7, 6]⟩ [9, 8, 7, 6]
    [0, 0, 0, 0] (by decide) rfl (by decide) (by decide)

/-- C9 counterexample: a decoder with dimensions `(0, 0)` and the default
`total_bytes = scanline_bytes = 0` whose `into_reader` fails still panics
(the `4096 / 0` of the chunk-size computation) rather than returning the
channel's error, so the claim fails without a positivity assumption on
`scanline_bytes`. -/
theorem C9_counterexample :
    Decoder.read_image_with_progress ⟨(0, 0), .L8, 0, 0, .error (.custom 3)⟩
        [] = .panicked ∧
    (ReadOutcome.panicked ≠ .error (.custom 3) [] []) := by
  exact ⟨by decide, by decide⟩

/-- C9 (amended): for every decoder with positive `scanline_bytes` whose
`into_reader` fails, both `read_image_with_progress` and `read_image` on a
buffer of length `total_bytes` return exactly that error, leave every byte
of the buffer unchanged and never invoke the progress callback. -/
theorem C9_reader_error_atomic (d : Decoder) (e : ImageError)
    (buf : List Nat) (hs : 1 ≤ d.scanline_bytes)
    (he : d.into_reader = .error e) (hbuf : buf.length = d.total_bytes) :
    d.read_image_with_progress buf = .error e buf [] ∧
    d.read_image buf = .error e buf [] := by
  have h : d.read_image_with_progress buf = .error e buf [] := by
    unfold Decoder.read_image_with_progress
    rw [if_pos hbuf, if_neg (by omega), he]
  exact ⟨h, h⟩

/-- C9 witness: the amended theorem applied to a 1-byte decoder whose
channel creation fails with error code 7. -/
theorem C9_reader_error_atomic_witness :
    Decoder.read_image_with_progress ⟨(1, 1), .L8, 1, 1, .error (.custom 7)⟩
      [0] = .error (.custom 7) [0] [] :=
  (C9_reader_error_atomic ⟨(1, 1), .L8, 1, 1, .error (.custom 7)⟩ (.custom 7)
    [0] (by decide) rfl (by decide)).1

/-- C10: on every successful `read_image_with_progress` over a decoder with
positive `total_bytes` and `scanline_bytes`, the reported `current` values
are strictly increasing, every report satisfies `0 < current ≤ total` with
`total = total_bytes`, and the final report has `current = total`. -/
theorem C10_progress_invariant (d : Decoder) (buf fb : List Nat)
    (rp : List Progress) (htb : 0 < d.total_bytes)
    (hs : 1 ≤ d.scanline_bytes)
    (h : d.read_image_with_progress buf = .ok fb rp) :
    rp.Pairwise (fun a b => a.current < b.current) ∧
    (∀ r ∈ rp, 0 < r.current ∧ r.current ≤ r.total ∧
      r.total = d.total_bytes) ∧
    rp.getLast? = some ⟨d.total_bytes, d.total_bytes⟩ := by
  unfold Decoder.read_image_with_progress at h
  by_cases h1 : buf.length = d.total_bytes
  case neg =>
    rw [if_neg h1] at h
    exact ReadOutcome.noConfusion h
  case pos =>
    rw [if_pos h1, if_neg (by omega)] at h
    cases hr : d.into_reader with
    | error e =>
      rw [hr] at h
      exact ReadOutcome.noConfusion h
    | ok reader =>
      rw [hr] at h
      have h2 : readLoop (targetReadSize d.scanline_bytes) d.total_bytes
          d.total_bytes reader buf 0 [] = .ok fb rp := h
      have ht : 1 ≤ targetReadSize d.scanline_bytes := targetReadSize_pos _ hs
      obtain ⟨h3, h4⟩ := readLoop_ok_reports _ _ _ _ _ _ _ _ _ h2
      subst h3
      refine ⟨?_, ?_, h4 htb⟩
      · simpa using chunkReports_pairwise _ _ ht d.total_bytes 0
      · intro r hrp
        have hm := chunkReports_mem _ _ ht d.total_bytes 0 r
          (by simpa using hrp)
        refine ⟨hm.2.1, ?_, hm.1⟩
        rw [hm.1]
        exact hm.2.2

/-- C10 witness: the theorem applied to a successful single-chunk run on a
4-byte decoder, whose unique report is `⟨4, 4⟩`. -/
theorem C10_progress_invariant_witness :
    ([⟨4, 4⟩] : List Progress).getLast? = some ⟨4, 4⟩ :=
  (C10_progress_invariant ⟨(1, 1), .Rgba8, 4, 2, .ok [9, 8, 7, 6]⟩
    [0, 0, 0, 0] [9, 8, 7, 6] [⟨4, 4⟩] (by decide) (by decide)
    (by decide)).2.2
